/-
Verification of the USB Topology & Physical-Grouping Engine
(appositeit/usb-explorer).

Shallow embedding of the relevant code:
  * `src/usb_explorer/usb_monitor.py` — device model, `parse_speed`,
    `USBMonitor._build_tree`, `USBMonitor._monitor_loop` (remove branch),
    learning mode (`start_learning_mode`, `stop_learning_mode`,
    `_analyze_disconnects`), and the active bisection test (`test_hub`).
  * `src/usb_debug_tool/usb_monitor.py` — the earlier `parse_speed` variant.

Python floats (timestamps, in seconds) are modelled as rationals; machine
state touched through sysfs (the per-device `authorized` attribute) is
modelled as explicit state threaded through the embedded `test_hub`,
with an oracle (`World`) choosing the outcome of every hardware write and
the contents of the device map at every observation point.
-/
import Mathlib

namespace USBExplorerVerification

/-! ### Device data model (`models.py`: `DeviceClass`, `USBDevice`) -/

/-- `DeviceClass` enumeration from `models.py`. -/
inductive DeviceClass where
  | hub
  | hid_keyboard
  | hid_mouse
  | hid_other
  | audio
  | video
  | storage
  | printer
  | wireless
  | comm
  | unknown
deriving DecidableEq, Repr, Inhabited

/-- The fields of `USBDevice` (`models.py`) that the verified code paths
read: identity, classification and tree-position data.  Descriptive
name/speed/power fields are carried by the real model but never branched
on by `_build_tree`, `_analyze_disconnects` or `test_hub`, so they are
omitted here; `children` is represented externally (see `TreeBuild`)
because the Python code populates it by mutation while assembling the
forest. -/
structure USBDevice where
  bus : Nat
  port_path : String
  device_class : DeviceClass
  is_root_hub : Bool
  parent_path : Option String
deriving DecidableEq, Repr, Inhabited

/-! ### Python string primitives

The Python code manipulates port paths with `in`, `startswith`, `rsplit`,
`split`.  These are embedded as structurally recursive functions on
`String.data` so that every definition evaluates inside the kernel. -/

/-- `"." in s` / `"-" in s` (Python membership test for a 1-char needle). -/
def strContains (s : String) (c : Char) : Bool :=
  s.data.contains c

/-- `s.startswith("usb")`. -/
def startsWithUsb (s : String) : Bool :=
  match s.data with
  | 'u' :: 's' :: 'b' :: _ => true
  | _ => false

/-- `s.startswith("pci")`. -/
def startsWithPci (s : String) : Bool :=
  match s.data with
  | 'p' :: 'c' :: 'i' :: _ => true
  | _ => false

/-- `port_path.rsplit(".", 1)[0]`: everything before the last `.`.
(Only ever called under a `"." in port_path` guard.) -/
def dropLastDotSegment (s : String) : String :=
  ⟨((s.data.reverse.dropWhile (fun c => c ≠ '.')).drop 1).reverse⟩

/-- `port_path.split("-")[0]`: the prefix before the first `-` (the whole
string when there is no `-`, exactly as Python's `split` behaves). -/
def busOfPortPath (s : String) : String :=
  ⟨s.data.takeWhile (fun c => c ≠ '-')⟩

/-- Python `s.split("/")` for the sysfs path (single-char separator). -/
def splitOnSlash : List Char → List String
  | [] => [""]
  | c :: cs =>
    match splitOnSlash cs, c with
    | r, '/' => "" :: r
    | [], _ => [⟨[c]⟩]
    | ⟨h⟩ :: t, _ => ⟨c :: h⟩ :: t

/-! ### Python `int()` conversion

`parse_speed` calls `int(speed_str)`.  Python's `int` on a string strips
surrounding whitespace, accepts an optional sign and then a run of decimal
digits in which single underscores may separate digits. -/

/-- Continuation of a Python decimal digit run: digits, with single
underscores allowed between digits (no trailing underscore). -/
def pyDigitsRest : List Char → Bool
  | [] => true
  | ['_'] => false
  | '_' :: c :: cs => c.isDigit && pyDigitsRest cs
  | c :: cs => c.isDigit && pyDigitsRest cs

/-- A nonempty Python decimal digit run (must start with a digit). -/
def pyDigits : List Char → Bool
  | [] => false
  | c :: cs => c.isDigit && pyDigitsRest cs

/-- Numeric value of a digit run, skipping underscores. -/
def pyDigitsVal : Nat → List Char → Nat
  | acc, [] => acc
  | acc, '_' :: cs => pyDigitsVal acc cs
  | acc, c :: cs => pyDigitsVal (10 * acc + (c.toNat - '0'.toNat)) cs

/-- Leading/trailing whitespace removal performed by Python `int()`. -/
def pyStrip (l : List Char) : List Char :=
  ((l.dropWhile Char.isWhitespace).reverse.dropWhile Char.isWhitespace).reverse

/-- Python `int(s)` for base 10: `some n` on success, `none` when the
string is not a valid integer literal (the `ValueError` case). -/
def pythonInt (s : String) : Option Int :=
  match pyStrip s.data with
  | '+' :: rest => if pyDigits rest then some ((pyDigitsVal 0 rest : Nat) : Int) else none
  | '-' :: rest => if pyDigits rest then some (-((pyDigitsVal 0 rest : Nat) : Int)) else none
  | rest => if pyDigits rest then some ((pyDigitsVal 0 rest : Nat) : Int) else none

/-! ### `parse_speed` — both revisions -/

/-- `parse_speed` from `src/usb_explorer/usb_monitor.py` (lines 172-183):
empty input and unparseable input both yield `""`; numeric speeds at least
5000 are shown as `<speed // 1000>G`, smaller ones as `<speed>M`. -/
def parse_speed (speed_str : String) : String :=
  if speed_str = "" then ""
  else
    match pythonInt speed_str with
    | some speed =>
        if speed ≥ 5000 then toString (Int.fdiv speed 1000) ++ "G"
        else toString speed ++ "M"
    | none => ""

namespace DebugTool

/-- `parse_speed` from `src/usb_debug_tool/usb_monitor.py` (lines 172-182):
empty input yields `"Unknown"`, and an unparseable value is returned
unchanged (`return speed_str`). -/
def parse_speed (speed_str : String) : String :=
  if speed_str = "" then "Unknown"
  else
    match pythonInt speed_str with
    | some speed =>
        if speed ≥ 5000 then toString (Int.fdiv speed 1000) ++ "G"
        else toString speed ++ "M"
    | none => speed_str

end DebugTool

/-! #### C7: speed formatting -/

/-- C7 counterexample: the claim says speed formatting never returns the
raw input string, but the `usb_debug_tool` revision cited by the claim
returns the unparseable input `"abc"` unchanged. -/
theorem c7_counterexample :
    pythonInt "abc" = none ∧ DebugTool.parse_speed "abc" = "abc" := by
  constructor
  · rfl
  · rfl

/-- C7 (amended): the `usb_explorer` `parse_speed` maps `"5000"` to
`"5G"`, `"480"` to `"480M"`, and empty or non-numeric input to `""`,
never the raw input; the `usb_debug_tool` variant maps empty input to
`"Unknown"` but returns non-numeric input unchanged. -/
theorem c7_parse_speed :
    parse_speed "5000" = "5G" ∧
    parse_speed "480" = "480M" ∧
    parse_speed "" = "" ∧
    (∀ s : String, pythonInt s = none → parse_speed s = "") ∧
    DebugTool.parse_speed "" = "Unknown" ∧
    (∀ s : String, s ≠ "" → pythonInt s = none → DebugTool.parse_speed s = s) := by
  refine ⟨rfl, rfl, rfl, ?_, rfl, ?_⟩
  · intro s hs
    unfold parse_speed
    by_cases h : s = ""
    · simp [h]
    · simp [h, hs]
  · intro s hne hs
    unfold DebugTool.parse_speed
    simp [hne, hs]

/-- C7 witness: the general non-numeric clauses of `c7_parse_speed`
evaluated at the concrete inputs `"xyz"` (explorer) and `"12cm"`
(debug tool). -/
theorem c7_witness :
    parse_speed "xyz" = "" ∧ DebugTool.parse_speed "12cm" = "12cm" :=
  ⟨c7_parse_speed.2.2.2.1 "xyz" (by rfl),
   c7_parse_speed.2.2.2.2.2 "12cm" (by decide) (by rfl)⟩

/-! ### Passive Correlation Engine (`_analyze_disconnects`)

A buffered disconnect is the tuple `(timestamp, port_path, device)` pushed
by `_monitor_loop` while learning mode is active.  Timestamps are
`time.time()` values in seconds, modelled as rationals. -/

/-- One entry of `self._learning_disconnects`. -/
structure DisconnectEvent where
  ts : ℚ
  port : String
  dev : USBDevice
deriving DecidableEq, Repr, Inhabited

/-- `USBMonitor.LEARNING_WINDOW_MS = 100`. -/
def LEARNING_WINDOW_MS : ℚ := 100

/-- One iteration of the grouping loop in `_analyze_disconnects`
(lines 678-690): state is `(groups, current_group)`. -/
def clusterStep (acc : List (List DisconnectEvent) × List DisconnectEvent)
    (e : DisconnectEvent) :
    List (List DisconnectEvent) × List DisconnectEvent :=
  match acc with
  | (groups, []) => (groups, [e])
  | (groups, c0 :: cs) =>
    if (e.ts - c0.ts) * 1000 ≤ LEARNING_WINDOW_MS then
      (groups, c0 :: (cs ++ [e]))
    else
      (groups ++ [c0 :: cs], [e])

/-- The trailing `if current_group: groups.append(current_group)`. -/
def clusterFinish
    (p : List (List DisconnectEvent) × List DisconnectEvent) :
    List (List DisconnectEvent) :=
  match p.2 with
  | [] => p.1
  | c0 :: cs => p.1 ++ [c0 :: cs]

/-- The grouping loop of `_analyze_disconnects` applied to the (sorted)
event buffer. -/
def clusterEvents (events : List DisconnectEvent) : List (List DisconnectEvent) :=
  clusterFinish (events.foldl clusterStep ([], []))

/-- Clustering as the spec words it: the current cluster accumulates
every event within the fixed window of the cluster's *first* event (the
anchor), and a new cluster starts at the first event exceeding that
anchored window.  Used only to compare against `clusterEvents`. -/
def specAnchoredClusters : List DisconnectEvent → List (List DisconnectEvent)
  | [] => []
  | e :: rest =>
    (e :: rest.takeWhile (fun x => decide ((x.ts - e.ts) * 1000 ≤ LEARNING_WINDOW_MS))) ::
      specAnchoredClusters
        (rest.dropWhile (fun x => decide ((x.ts - e.ts) * 1000 ≤ LEARNING_WINDOW_MS)))
termination_by l => l.length
decreasing_by
  exact Nat.lt_succ_of_le (List.dropWhile_sublist _).length_le

/-- Python's `max(groups, key=len)`: the first group of maximal length
(`max` only replaces the running maximum on a strictly greater key). -/
def maxByLen (groups : List (List DisconnectEvent)) : Option (List DisconnectEvent) :=
  match groups with
  | [] => none
  | g :: gs => some (gs.foldl (fun best x => if best.length < x.length then x else best) g)

/-- `self._learning_disconnects.sort(key=lambda x: x[0])` — a stable sort
by timestamp (insertion sort with non-strict comparison is stable, like
Python's `list.sort`). -/
def sortDisconnects (events : List DisconnectEvent) : List DisconnectEvent :=
  List.insertionSort (fun a b => a.ts ≤ b.ts) events

/-- The winning cluster: sort, group, and take the largest group. -/
def winningCluster (events : List DisconnectEvent) : Option (List DisconnectEvent) :=
  maxByLen (clusterEvents (sortDisconnects events))

/-- The loop state of the member-collection loop (lines 705-725). -/
structure AnalyzeAcc where
  members : List String
  devices_info : List (String × DeviceClass)
  has_storage : Bool
  skipped_existing : List String
deriving DecidableEq, Repr

/-- One iteration of the member-collection loop: hubs already in a saved
group are recorded in `skipped_existing` and skipped (`continue`), other
hubs become members; a storage-classified event sets the storage flag.
(Display names in `devices_info` are not modelled; the port path and
class are kept.) -/
def analyzeStep (existing : List String) (acc : AnalyzeAcc)
    (e : DisconnectEvent) : AnalyzeAcc :=
  if e.dev.device_class = DeviceClass.hub then
    if e.port ∈ existing then
      { acc with skipped_existing := acc.skipped_existing ++ [e.port] }
    else
      let acc1 := { acc with
        members := acc.members ++ [e.port],
        devices_info := acc.devices_info ++ [(e.port, e.dev.device_class)] }
      if e.dev.device_class = DeviceClass.storage then
        { acc1 with has_storage := true }
      else acc1
  else
    if e.dev.device_class = DeviceClass.storage then
      { acc with has_storage := true }
    else acc

/-- The result dict built at the end of `_analyze_disconnects`. -/
structure DetectedGroup where
  members : List String
  devices_info : List (String × DeviceClass)
  has_storage : Bool
  timestamp : ℚ
  skipped_existing : List String
deriving DecidableEq, Repr

/-- `USBMonitor._analyze_disconnects` (lines 661-740).  The set of port
paths already in saved physical groups (`_get_existing_group_members`,
supplied by the configuration collaborator) is passed as `existing`. -/
def analyze_disconnects (events : List DisconnectEvent)
    (existing : List String) : Option DetectedGroup :=
  if events = [] then none
  else
    match winningCluster events with
    | none => none
    | some largest =>
      if largest.length < 1 then none
      else
        let acc := largest.foldl (analyzeStep existing) ⟨[], [], false, []⟩
        if acc.members = [] then none
        else
          some ⟨acc.members, acc.devices_info, acc.has_storage,
                (largest.headD default).ts, acc.skipped_existing⟩

/-! #### C2: anchored-window clustering -/

/-- Generalised accumulator lemma: running the grouping loop from state
`(done, c0 :: cs)` yields `done`, then the current cluster extended with
the longest anchored-window prefix, then the spec clustering of the
rest. -/
theorem clusterFold_eq (es : List DisconnectEvent) :
    ∀ (done : List (List DisconnectEvent)) (c0 : DisconnectEvent)
      (cs : List DisconnectEvent),
      clusterFinish (es.foldl clusterStep (done, c0 :: cs))
        = done ++
          ((c0 :: (cs ++ es.takeWhile
              (fun x => decide ((x.ts - c0.ts) * 1000 ≤ LEARNING_WINDOW_MS)))) ::
            specAnchoredClusters (es.dropWhile
              (fun x => decide ((x.ts - c0.ts) * 1000 ≤ LEARNING_WINDOW_MS)))) := by
  induction es with
  | nil =>
    intro done c0 cs
    simp [clusterFinish, specAnchoredClusters]
  | cons e es ih =>
    intro done c0 cs
    by_cases h : (e.ts - c0.ts) * 1000 ≤ LEARNING_WINDOW_MS
    · have hstep : clusterStep (done, c0 :: cs) e = (done, c0 :: (cs ++ [e])) := by
        simp [clusterStep, h]
      rw [List.foldl_cons, hstep, ih done c0 (cs ++ [e])]
      simp [List.takeWhile_cons, List.dropWhile_cons, h]
    · have hstep : clusterStep (done, c0 :: cs) e = (done ++ [c0 :: cs], [e]) := by
        simp [clusterStep, h]
      rw [List.foldl_cons, hstep, ih (done ++ [c0 :: cs]) e []]
      simp [List.takeWhile_cons, List.dropWhile_cons, h, specAnchoredClusters]

/-- The code's clustering loop computes exactly the spec's anchored-window
clustering, on every event list. -/
theorem clusterEvents_eq_spec (es : List DisconnectEvent) :
    clusterEvents es = specAnchoredClusters es := by
  cases es with
  | nil => simp [clusterEvents, clusterFinish, specAnchoredClusters]
  | cons e es =>
    have h0 : clusterStep ([], []) e = ([], [e]) := rfl
    unfold clusterEvents
    rw [List.foldl_cons, h0, clusterFold_eq es [] e []]
    simp [specAnchoredClusters]

/-- A sample hub device at a given port (used for concrete instances). -/
def sampleHub (p : String) : USBDevice :=
  ⟨5, p, DeviceClass.hub, false, none⟩

/-- Disconnects at relative times 0 ms, 50 ms, 90 ms, 500 ms (timestamps
in seconds, as `time.time()` yields). -/
def c2e0 : DisconnectEvent := ⟨0, "5-1", sampleHub "5-1"⟩

def c2e1 : DisconnectEvent := ⟨1/20, "5-2", sampleHub "5-2"⟩

def c2e2 : DisconnectEvent := ⟨9/100, "5-3", sampleHub "5-3"⟩

def c2e3 : DisconnectEvent := ⟨1/2, "5-4", sampleHub "5-4"⟩

def c2Events : List DisconnectEvent := [c2e0, c2e1, c2e2, c2e3]

/-- C2: on the buffer with relative timestamps 0/50/90/500 ms the loop
produces the clusters `{0,50,90}` and `{500}` and selects the size-3
cluster; in general the loop clusters by an anchored window — it equals
the spec's first-event-anchored clustering on every event list. -/
theorem c2_anchored_clustering :
    clusterEvents c2Events = [[c2e0, c2e1, c2e2], [c2e3]] ∧
    winningCluster c2Events = some [c2e0, c2e1, c2e2] ∧
    ∀ es : List DisconnectEvent, clusterEvents es = specAnchoredClusters es := by
  refine ⟨?_, ?_, clusterEvents_eq_spec⟩
  · norm_num [c2Events, c2e0, c2e1, c2e2, c2e3, sampleHub, clusterEvents,
      clusterFinish, clusterStep, LEARNING_WINDOW_MS]
  · norm_num [c2Events, c2e0, c2e1, c2e2, c2e3, sampleHub, winningCluster,
      sortDisconnects, List.insertionSort, List.orderedInsert, clusterEvents,
      clusterFinish, clusterStep, maxByLen, LEARNING_WINDOW_MS]

/-! #### C3: saved-group members are excluded from fresh proposals -/

/-- Ports added to the member list by one loop iteration are not in a
saved group. -/
theorem analyzeStep_members (existing : List String) (acc : AnalyzeAcc)
    (e : DisconnectEvent) (p : String)
    (h : p ∈ (analyzeStep existing acc e).members) :
    p ∈ acc.members ∨ p ∉ existing := by
  by_cases hhub : e.dev.device_class = DeviceClass.hub
  · by_cases hex : e.port ∈ existing
    · simp only [analyzeStep, if_pos hhub, if_pos hex] at h
      exact Or.inl h
    · simp [analyzeStep, hhub, hex] at h
      rcases h with h | h
      · exact Or.inl h
      · subst h; exact Or.inr hex
  · simp only [analyzeStep, if_neg hhub] at h
    split_ifs at h <;> exact Or.inl h

/-- Ports appearing in the fold's member list either were already there
or are not in a saved group. -/
theorem analyzeFold_members (existing : List String)
    (lg : List DisconnectEvent) :
    ∀ (acc : AnalyzeAcc) (p : String),
      p ∈ (lg.foldl (analyzeStep existing) acc).members →
      p ∈ acc.members ∨ p ∉ existing := by
  induction lg with
  | nil => intro acc p h; exact Or.inl h
  | cons e lg ih =>
    intro acc p h
    rw [List.foldl_cons] at h
    rcases ih _ p h with h1 | h1
    · exact analyzeStep_members existing acc e p h1
    · exact Or.inr h1

/-- The skipped list only grows along the fold. -/
theorem analyzeFold_skipped_mono (existing : List String)
    (lg : List DisconnectEvent) :
    ∀ (acc : AnalyzeAcc) (p : String),
      p ∈ acc.skipped_existing →
      p ∈ (lg.foldl (analyzeStep existing) acc).skipped_existing := by
  induction lg with
  | nil => intro acc p h; exact h
  | cons e lg ih =>
    intro acc p h
    rw [List.foldl_cons]
    refine ih _ p ?_
    unfold analyzeStep
    split_ifs <;> simp [h]

/-- A hub of the winning cluster whose port is in a saved group ends up
in the skipped list. -/
theorem analyzeFold_skip (existing : List String)
    (lg : List DisconnectEvent) :
    ∀ (acc : AnalyzeAcc) (e : DisconnectEvent), e ∈ lg →
      e.dev.device_class = DeviceClass.hub → e.port ∈ existing →
      e.port ∈ (lg.foldl (analyzeStep existing) acc).skipped_existing := by
  induction lg with
  | nil => intro acc e h; cases h
  | cons e0 lg ih =>
    intro acc e he hhub hex
    rw [List.foldl_cons]
    rcases List.mem_cons.mp he with rfl | he
    · refine analyzeFold_skipped_mono existing lg _ e.port ?_
      unfold analyzeStep
      simp [hhub, hex]
    · exact ih _ e he hhub hex

/-- When every hub of the cluster is already saved, no members are
collected. -/
theorem analyzeFold_members_eq (existing : List String)
    (lg : List DisconnectEvent) :
    ∀ acc : AnalyzeAcc,
      (∀ e ∈ lg, e.dev.device_class = DeviceClass.hub → e.port ∈ existing) →
      (lg.foldl (analyzeStep existing) acc).members = acc.members := by
  induction lg with
  | nil => intro acc _; rfl
  | cons e0 lg ih =>
    intro acc hall
    rw [List.foldl_cons]
    have hstep : (analyzeStep existing acc e0).members = acc.members := by
      by_cases hhub : e0.dev.device_class = DeviceClass.hub
      · simp [analyzeStep, hhub, hall e0 (List.mem_cons_self e0 lg) hhub]
      · simp only [analyzeStep, if_neg hhub]
        split_ifs <;> rfl
    rw [ih _ (fun e he => hall e (List.mem_cons_of_mem e0 he)), hstep]

/-- C3: a port path in a saved physical group never appears among the
members of a freshly analyzed group; such hubs of the winning cluster are
reported in `skipped_existing` instead; and when every hub of the winning
cluster is already saved, the analysis yields no group at all. -/
theorem c3_saved_groups_excluded :
    (∀ (events : List DisconnectEvent) (existing : List String)
        (g : DetectedGroup),
      analyze_disconnects events existing = some g →
        (∀ p ∈ existing, p ∉ g.members) ∧ g.members ≠ [] ∧
        (∀ lg, winningCluster events = some lg →
          ∀ e ∈ lg, e.dev.device_class = DeviceClass.hub → e.port ∈ existing →
            e.port ∈ g.skipped_existing)) ∧
    (∀ (events : List DisconnectEvent) (existing : List String)
        (lg : List DisconnectEvent),
      winningCluster events = some lg →
      (∀ e ∈ lg, e.dev.device_class = DeviceClass.hub → e.port ∈ existing) →
      analyze_disconnects events existing = none) := by
  constructor
  · intro events existing g h
    by_cases hne : events = []
    · simp [analyze_disconnects, hne] at h
    · rcases hw : winningCluster events with _ | largest
      · simp [analyze_disconnects, hne, hw] at h
      · simp only [analyze_disconnects, hne, hw, if_false, if_neg hne] at h
        split_ifs at h with h1 h2
        rw [Option.some_inj] at h
        subst h
        refine ⟨?_, h2, ?_⟩
        · intro p hp hmem
          rcases analyzeFold_members existing largest _ p hmem with hin | hnin
          · cases hin
          · exact hnin hp
        · intro lg0 hlg e he hhub hex
          have hl : largest = lg0 := Option.some.inj hlg
          subst hl
          exact analyzeFold_skip existing largest _ e he hhub hex
  · intro events existing lg hw hall
    have hmem := analyzeFold_members_eq existing lg
      ⟨[], [], false, []⟩ hall
    by_cases hne : events = []
    · simp [analyze_disconnects, hne]
    · simp only [analyze_disconnects, if_neg hne, hw]
      by_cases h1 : lg.length < 1
      · rw [if_pos h1]
      · rw [if_neg h1, if_pos hmem]

def c3eA : DisconnectEvent := ⟨0, "A", sampleHub "A"⟩

def c3eB : DisconnectEvent := ⟨0, "B", sampleHub "B"⟩

def c3Events : List DisconnectEvent := [c3eA, c3eB]

def c3Group : DetectedGroup :=
  ⟨["B"], [("B", DeviceClass.hub)], false, 0, ["A"]⟩

/-- C3 witness: with hubs `A` and `B` disconnecting together and `A`
already saved, the analysis proposes only `B` and reports `A` skipped. -/
theorem c3_witness :
    "A" ∉ c3Group.members ∧ c3Group.members ≠ [] ∧
    "A" ∈ c3Group.skipped_existing := by
  have hBA : ("B" : String) ≠ "A" := by decide
  have hres : analyze_disconnects c3Events ["A"] = some c3Group := by
    norm_num [analyze_disconnects, winningCluster, sortDisconnects,
      List.insertionSort, List.orderedInsert, clusterEvents, clusterFinish,
      clusterStep, maxByLen, analyzeStep, c3Events, c3eA, c3eB, sampleHub,
      c3Group, hBA, LEARNING_WINDOW_MS]
    all_goals decide
  have hwin : winningCluster c3Events = some [c3eA, c3eB] := by
    norm_num [winningCluster, sortDisconnects, List.insertionSort,
      List.orderedInsert, clusterEvents, clusterFinish, clusterStep,
      maxByLen, c3Events, c3eA, c3eB, sampleHub, LEARNING_WINDOW_MS]
  obtain ⟨h1, h2, h3⟩ := c3_saved_groups_excluded.1 c3Events ["A"] c3Group hres
  refine ⟨h1 "A" (by simp), h2, ?_⟩
  exact h3 [c3eA, c3eB] hwin c3eA (by simp) rfl (by simp [c3eA])

/-! ### Live State Store and learning-session state -/

/-- The usb_explorer `EventType` values referenced by `usb_monitor.py`.
(The usb_explorer tree ships no `models.py` of its own; the constructors
are those the monitor emits, as listed by the spec's event interface.) -/
inductive EventType where
  | full_tree
  | device_added
  | device_removed
  | device_error
  | learning_started
  | learning_saved
  | learning_cancelled
deriving DecidableEq, Repr

/-- The `USBMonitor` state touched by the remove branch and by learning
mode: `self._devices` (a port-path-keyed map, keys unique), and the
`_learning_mode` / `_learning_disconnects` / `_learning_exclude_storage`
session fields. -/
structure MonitorState where
  devices : List (String × USBDevice)
  learning_mode : Bool
  learning_disconnects : List DisconnectEvent
  learning_exclude_storage : Bool
deriving DecidableEq, Repr

/-- Port-path derivation in the remove branch of `_monitor_loop`
(lines 485-490): scan the sysfs path components from the right and take
the first containing `-` that does not start with `pci`. -/
def derive_remove_port_path (sys_path : String) : Option String :=
  (splitOnSlash sys_path.data).reverse.find?
    (fun part => strContains part '-' && !(startsWithPci part))

/-- The `action == "remove"` branch of `USBMonitor._monitor_loop`
(lines 481-511), with `now` the `time.time()` value: pop the device,
append a disconnect to the session buffer when learning, and emit a
DEVICE_REMOVED event; when the derived port path is missing or unknown,
nothing happens. -/
def monitor_remove (st : MonitorState) (sys_path : String) (now : ℚ) :
    MonitorState × List (EventType × String) :=
  match derive_remove_port_path sys_path with
  | none => (st, [])
  | some pp =>
    match st.devices.lookup pp with
    | none => (st, [])
    | some dev =>
      ({ st with
          devices := st.devices.filter (fun pd => pd.1 ≠ pp),
          learning_disconnects :=
            if st.learning_mode then
              st.learning_disconnects ++ [⟨now, pp, dev⟩]
            else st.learning_disconnects },
       [(EventType.device_removed, pp)])

/-! #### C8: a remove for an unknown port path is a no-op -/

/-- C8: when the port path derived from a remove notification is absent
from the device map (or cannot be derived at all), the state — device
map and learning buffer included — is unchanged and no event is
emitted. -/
theorem c8_unknown_remove_noop :
    ∀ (st : MonitorState) (sys_path : String) (now : ℚ),
      (∀ pp, derive_remove_port_path sys_path = some pp →
        st.devices.lookup pp = none) →
      monitor_remove st sys_path now = (st, []) := by
  intro st sp now h
  rcases hd : derive_remove_port_path sp with _ | pp
  · simp [monitor_remove, hd]
  · simp [monitor_remove, hd, h pp hd]

def c8State : MonitorState :=
  ⟨[("5-1", sampleHub "5-1")], true, [⟨0, "5-9", sampleHub "5-9"⟩], false⟩

def c8Path : String := "/sys/devices/pci0000:00/0000:00:14.0/usb5/5-2"

/-- C8 witness: a remove for `5-2` while only `5-1` is known leaves the
state untouched and emits nothing. -/
theorem c8_witness : monitor_remove c8State c8Path 1 = (c8State, []) := by
  refine c8_unknown_remove_noop c8State c8Path 1 ?_
  intro pp hp
  have hd : derive_remove_port_path c8Path = some "5-2" := by decide
  rw [hd] at hp
  cases hp
  decide

/-! #### C6 / C9: learning-session lifecycle -/

/-- `USBMonitor.start_learning_mode` (lines 571-606): unconditionally
(re)activates learning mode and resets the disconnect buffer, returning
status `"started"`.  (The informational storage summary included in the
returned dict and in the LEARNING_STARTED payload is advisory data read
from the device map and is not modelled.) -/
def start_learning_mode (st : MonitorState) (exclude_storage : Bool) :
    String × MonitorState :=
  ("started",
   { st with
      learning_mode := true,
      learning_disconnects := [],
      learning_exclude_storage := exclude_storage })

def c6Busy : MonitorState :=
  ⟨[], true, [⟨0, "5-1", sampleHub "5-1"⟩], false⟩

/-- C6 counterexample: with a session already active and one buffered
disconnect, a second `start_learning_mode` does not fail — it returns
`"started"` and silently discards the buffered event. -/
theorem c6_counterexample :
    c6Busy.learning_mode = true ∧
    c6Busy.learning_disconnects ≠ [] ∧
    (start_learning_mode c6Busy false).1 = "started" ∧
    (start_learning_mode c6Busy false).2.learning_disconnects = [] :=
  ⟨rfl, by decide, rfl, rfl⟩

/-- C6 (amended): `start_learning_mode` never fails; from every state —
including one with a session already active — it returns `"started"`,
activates learning, resets the disconnect buffer (discarding any prior
session's buffered events), stores the exclude-storage hint, and leaves
the device map alone.  At most one session is active at a time only
because the active flag is a single boolean. -/
theorem c6_start_learning_mode :
    ∀ (st : MonitorState) (ex : Bool),
      (start_learning_mode st ex).1 = "started" ∧
      (start_learning_mode st ex).2.learning_mode = true ∧
      (start_learning_mode st ex).2.learning_disconnects = [] ∧
      (start_learning_mode st ex).2.learning_exclude_storage = ex ∧
      (start_learning_mode st ex).2.devices = st.devices :=
  fun _ _ => ⟨rfl, rfl, rfl, rfl, rfl⟩

/-- The dict returned by `stop_learning_mode`. -/
structure StopResult where
  status : String
  detected_group : Option DetectedGroup
deriving DecidableEq, Repr

/-- `USBMonitor.stop_learning_mode` (lines 608-646), with `existing` the
saved-group member set consulted by the analysis.  Returns the result
dict, the new state and the emitted event (`none` when no session was
active). -/
def stop_learning_mode (st : MonitorState) (save : Bool)
    (existing : List String) :
    StopResult × MonitorState × Option EventType :=
  if st.learning_mode = false then (⟨"not_in_learning_mode", none⟩, st, none)
  else
    let detected := analyze_disconnects st.learning_disconnects existing
    let ev :=
      if save && detected.isSome then EventType.learning_saved
      else EventType.learning_cancelled
    (⟨if save then "saved" else "cancelled", detected⟩,
     { st with learning_mode := false, learning_disconnects := [] },
     some ev)

/-- C9: stopping an active session reports `"saved"`/`"cancelled"`
purely from the `save` argument, independently of detection; it always
deactivates the session and clears the buffer; and with `save` and no
detected group the status is still `"saved"` while the emitted event is
LEARNING_CANCELLED and the detected group is `none`. -/
theorem c9_stop_learning_mode :
    ∀ (st : MonitorState) (save : Bool) (existing : List String),
      st.learning_mode = true →
      (stop_learning_mode st save existing).1.status
          = (if save then "saved" else "cancelled") ∧
      (stop_learning_mode st save existing).2.1.learning_mode = false ∧
      (stop_learning_mode st save existing).2.1.learning_disconnects = [] ∧
      (stop_learning_mode st save existing).1.detected_group
          = analyze_disconnects st.learning_disconnects existing ∧
      (analyze_disconnects st.learning_disconnects existing = none →
        (stop_learning_mode st save existing).2.2
            = some EventType.learning_cancelled) := by
  intro st save existing h
  have hne : ¬ st.learning_mode = false := by simp [h]
  refine ⟨?_, ?_, ?_, ?_, ?_⟩
  · simp [stop_learning_mode, hne]
  · simp [stop_learning_mode, hne]
  · simp [stop_learning_mode, hne]
  · simp [stop_learning_mode, hne]
  · intro hnone
    simp [stop_learning_mode, hne, hnone]

/-- C9 witness: stopping an active session with an empty buffer and
`save = true` reports `"saved"` with no detected group, clears the
session, and emits LEARNING_CANCELLED. -/
theorem c9_witness :
    (stop_learning_mode ⟨[], true, [], false⟩ true []).1.status = "saved" ∧
    (stop_learning_mode ⟨[], true, [], false⟩ true []).2.1.learning_mode = false ∧
    (stop_learning_mode ⟨[], true, [], false⟩ true []).1.detected_group = none ∧
    (stop_learning_mode ⟨[], true, [], false⟩ true []).2.2
        = some EventType.learning_cancelled := by
  obtain ⟨h1, h2, h3, h4, h5⟩ :=
    c9_stop_learning_mode ⟨[], true, [], false⟩ true [] rfl
  have hnone : analyze_disconnects ([] : List DisconnectEvent) [] = none := rfl
  exact ⟨by simpa using h1, h2, by simpa [hnone] using h4, h5 hnone⟩

/-! ### Topology Assembler (`_build_tree`) -/

/-- The root test of `_build_tree` (line 412):
`device.is_root_hub or device.port_path.startswith("usb")`. -/
def rootCond (d : USBDevice) : Bool :=
  d.is_root_hub || startsWithUsb d.port_path

/-- Parent-path derivation of `_build_tree` (lines 417-427): the path
before the last `.`; or `usb<bus>` when the path has a `-` but no `.`;
`none` when neither separator occurs (the device is then appended to the
roots). -/
def derivedParent (p : String) : Option String :=
  if strContains p '.' then some (dropLastDotSegment p)
  else if strContains p '-' then some ("usb" ++ busOfPortPath p)
  else none

/-- The forest produced by `_build_tree`.  Child attachment
(`parent.children.append(device)`) is represented by
`(parent port path, child)` pairs in attachment order; with unique port
paths this is exactly the `children` population performed by mutation. -/
structure TreeBuild where
  roots : List USBDevice
  childPairs : List (String × USBDevice)
deriving DecidableEq, Repr

/-- One iteration of the `_build_tree` placement loop. -/
def buildStep (paths : List String) (acc : TreeBuild) (d : USBDevice) :
    TreeBuild :=
  if rootCond d then { acc with roots := acc.roots ++ [d] }
  else
    match derivedParent d.port_path with
    | none => { acc with roots := acc.roots ++ [d] }
    | some pp =>
        if pp ∈ paths then
          { acc with childPairs := acc.childPairs ++ [(pp, d)] }
        else { acc with roots := acc.roots ++ [d] }

/-- The sort on line 406: `devices.sort(key=lambda d: len(d.port_path))`
(`list.sort` is stable, as is insertion sort). -/
def sortedDevices (devices : List USBDevice) : List USBDevice :=
  List.insertionSort
    (fun a b => a.port_path.data.length ≤ b.port_path.data.length) devices

/-- The port-path index `path_map` (line 409), as its key list. -/
def indexPaths (devices : List USBDevice) : List String :=
  (sortedDevices devices).map (fun d => d.port_path)

/-- `USBMonitor._build_tree` (lines 403-437): sort by port-path length,
index every port path, then place each device in order. -/
def build_tree (devices : List USBDevice) : TreeBuild :=
  (sortedDevices devices).foldl (buildStep (indexPaths devices)) ⟨[], []⟩

/-- Each loop iteration places its device in exactly one spot: the
per-port-path occurrence count across roots and child pairs grows by the
device count of the processed list. -/
theorem buildFold_count (paths : List String) (l : List USBDevice) :
    ∀ (acc : TreeBuild) (q : String),
      ((l.foldl (buildStep paths) acc).roots.countP
          (fun x => x.port_path == q) +
        (l.foldl (buildStep paths) acc).childPairs.countP
          (fun x => x.2.port_path == q))
      = (acc.roots.countP (fun x => x.port_path == q) +
          acc.childPairs.countP (fun x => x.2.port_path == q))
        + l.countP (fun x => x.port_path == q) := by
  induction l with
  | nil => intro acc q; simp
  | cons d l ih =>
    intro acc q
    rw [List.foldl_cons, ih, List.countP_cons]
    have hstep :
        (buildStep paths acc d).roots.countP (fun x => x.port_path == q) +
          (buildStep paths acc d).childPairs.countP
            (fun x => x.2.port_path == q)
        = acc.roots.countP (fun x => x.port_path == q) +
            acc.childPairs.countP (fun x => x.2.port_path == q) +
            (if (d.port_path == q) = true then 1 else 0) := by
      by_cases hr : rootCond d
      · simp [buildStep, hr, List.countP_append, List.countP_cons]
        omega
      · rcases hdp : derivedParent d.port_path with _ | pp
        · simp [buildStep, hr, hdp, List.countP_append, List.countP_cons]
          omega
        · by_cases hpp : pp ∈ paths
          · simp [buildStep, hr, hdp, hpp, List.countP_append,
              List.countP_cons]
            omega
          · simp [buildStep, hr, hdp, hpp, List.countP_append,
              List.countP_cons]
            omega
    omega

/-- Every attachment pair records the derived parent path, which was in
the index, for a non-root device. -/
theorem buildFold_pairs (paths : List String) (l : List USBDevice) :
    ∀ (acc : TreeBuild),
      (∀ pr ∈ acc.childPairs,
        derivedParent pr.2.port_path = some pr.1 ∧ pr.1 ∈ paths ∧
          rootCond pr.2 = false) →
      ∀ pr ∈ (l.foldl (buildStep paths) acc).childPairs,
        derivedParent pr.2.port_path = some pr.1 ∧ pr.1 ∈ paths ∧
          rootCond pr.2 = false := by
  induction l with
  | nil => intro acc hacc; exact hacc
  | cons d l ih =>
    intro acc hacc
    rw [List.foldl_cons]
    refine ih _ ?_
    intro pr hpr
    by_cases hr : rootCond d
    · simp only [buildStep, if_pos hr] at hpr
      exact hacc pr hpr
    · rcases hdp : derivedParent d.port_path with _ | pp
      · simp only [buildStep, if_neg hr, hdp] at hpr
        exact hacc pr hpr
      · by_cases hpp : pp ∈ paths
        · simp only [buildStep, if_neg hr, hdp, if_pos hpp] at hpr
          rcases List.mem_append.mp hpr with h | h
          · exact hacc pr h
          · rcases List.mem_singleton.mp h with rfl
            exact ⟨hdp, hpp, by simpa using hr⟩
        · simp only [buildStep, if_neg hr, hdp, if_neg hpp] at hpr
          exact hacc pr hpr

/-- The root list only grows along the placement loop. -/
theorem buildFold_roots_mono (paths : List String) (l : List USBDevice) :
    ∀ (acc : TreeBuild) (x : USBDevice), x ∈ acc.roots →
      x ∈ (l.foldl (buildStep paths) acc).roots := by
  induction l with
  | nil => intro acc x h; exact h
  | cons d l ih =>
    intro acc x h
    rw [List.foldl_cons]
    refine ih _ x ?_
    by_cases hr : rootCond d
    · simp [buildStep, hr, h]
    · rcases hdp : derivedParent d.port_path with _ | pp
      · simp [buildStep, hr, hdp, h]
      · by_cases hpp : pp ∈ paths
        · simp [buildStep, hr, hdp, hpp, h]
        · simp [buildStep, hr, hdp, hpp, h]

/-- The attachment list only grows along the placement loop. -/
theorem buildFold_pairs_mono (paths : List String) (l : List USBDevice) :
    ∀ (acc : TreeBuild) (pr : String × USBDevice), pr ∈ acc.childPairs →
      pr ∈ (l.foldl (buildStep paths) acc).childPairs := by
  induction l with
  | nil => intro acc pr h; exact h
  | cons d l ih =>
    intro acc pr h
    rw [List.foldl_cons]
    refine ih _ pr ?_
    by_cases hr : rootCond d
    · simp [buildStep, hr, h]
    · rcases hdp : derivedParent d.port_path with _ | pp
      · simp [buildStep, hr, hdp, h]
      · by_cases hpp : pp ∈ paths
        · simp [buildStep, hr, hdp, hpp, h]
        · simp [buildStep, hr, hdp, hpp, h]

/-- A processed device satisfying the root condition lands in the
roots. -/
theorem buildFold_root_placed (paths : List String) (l : List USBDevice) :
    ∀ (acc : TreeBuild) (d : USBDevice), d ∈ l → rootCond d = true →
      d ∈ (l.foldl (buildStep paths) acc).roots := by
  induction l with
  | nil => intro acc d h; cases h
  | cons d0 l ih =>
    intro acc d hd hr
    rw [List.foldl_cons]
    rcases List.mem_cons.mp hd with rfl | hd
    · refine buildFold_roots_mono paths l _ d ?_
      simp [buildStep, hr]
    · exact ih _ d hd hr

/-- A processed non-root device whose derived parent is absent from the
index (or underivable) lands in the roots. -/
theorem buildFold_orphan_placed (paths : List String) (l : List USBDevice) :
    ∀ (acc : TreeBuild) (d : USBDevice), d ∈ l → rootCond d = false →
      (∀ pp, derivedParent d.port_path = some pp → pp ∉ paths) →
      d ∈ (l.foldl (buildStep paths) acc).roots := by
  induction l with
  | nil => intro acc d h; cases h
  | cons d0 l ih =>
    intro acc d hd hr horb
    rw [List.foldl_cons]
    rcases List.mem_cons.mp hd with rfl | hd
    · refine buildFold_roots_mono paths l _ d ?_
      rcases hdp : derivedParent d.port_path with _ | pp
      · simp [buildStep, hr, hdp]
      · simp [buildStep, hr, hdp, horb pp hdp]
    · exact ih _ d hd hr horb

/-- A processed non-root device whose derived parent is in the index is
attached under that parent path. -/
theorem buildFold_attached (paths : List String) (l : List USBDevice) :
    ∀ (acc : TreeBuild) (d : USBDevice) (pp : String), d ∈ l →
      rootCond d = false → derivedParent d.port_path = some pp →
      pp ∈ paths →
      (pp, d) ∈ (l.foldl (buildStep paths) acc).childPairs := by
  induction l with
  | nil => intro acc d pp h; cases h
  | cons d0 l ih =>
    intro acc d pp hd hr hdp hpp
    rw [List.foldl_cons]
    rcases List.mem_cons.mp hd with rfl | hd
    · refine buildFold_pairs_mono paths l _ (pp, d) ?_
      simp [buildStep, hr, hdp, hpp]
    · exact ih _ d pp hd hr hdp hpp

/-- In a duplicate-free list, a present element is counted exactly
once. -/
theorem countP_eq_one_of_nodup_mem {l : List String} {a : String}
    (hnd : l.Nodup) (ha : a ∈ l) :
    l.countP (fun s => s == a) = 1 := by
  induction l with
  | nil => cases ha
  | cons b l ih =>
    rw [List.countP_cons]
    rcases List.mem_cons.mp ha with rfl | ha2
    · have hz : l.countP (fun s => s == a) = 0 := by
        rw [List.countP_eq_zero]
        intro x hx
        simp only [beq_iff_eq]
        intro h
        subst h
        exact (List.nodup_cons.mp hnd).1 hx
      simp [hz]
    · have hne : ¬ (b == a) = true := by
        simp only [beq_iff_eq]
        intro h
        subst h
        exact (List.nodup_cons.mp hnd).1 ha2
      simp [ih (List.nodup_cons.mp hnd).2 ha2, hne]

/-- With unique port paths, every input device is placed exactly once by
`_build_tree` (shared by the C4 and C5 theorems). -/
theorem build_tree_count (devices : List USBDevice)
    (hnd : (devices.map (fun x => x.port_path)).Nodup)
    (d : USBDevice) (hd : d ∈ devices) :
    (build_tree devices).roots.countP (fun x => x.port_path == d.port_path) +
      (build_tree devices).childPairs.countP
        (fun x => x.2.port_path == d.port_path) = 1 := by
  have hperm : (sortedDevices devices).Perm devices :=
    List.perm_insertionSort _ devices
  have h := buildFold_count (indexPaths devices) (sortedDevices devices)
    ⟨[], []⟩ d.port_path
  unfold build_tree
  rw [h]
  simp only [List.countP_nil, Nat.zero_add]
  rw [hperm.countP_eq]
  have hmap : (devices.map (fun x => x.port_path)).countP
      (fun s => s == d.port_path)
      = devices.countP (fun x => x.port_path == d.port_path) := by
    rw [List.countP_map]
    rfl
  rw [← hmap]
  exact countP_eq_one_of_nodup_mem hnd (List.mem_map.mpr ⟨d, hd, rfl⟩)

/-! #### C4: the assembled forest -/

/-- C4: with well-formed (unique) port paths, every input device is
placed exactly once — as a root or under exactly one parent; every
attachment hangs a non-root device under the indexed device at the
derived parent path (last `.`-segment dropped, or `usb<bus>`); and a
device whose derived parent is not in the index becomes a root instead
of being dropped. -/
theorem c4_topology_forest :
    ∀ devices : List USBDevice,
      (devices.map (fun x => x.port_path)).Nodup →
      (∀ d ∈ devices,
        (build_tree devices).roots.countP
            (fun x => x.port_path == d.port_path) +
          (build_tree devices).childPairs.countP
            (fun x => x.2.port_path == d.port_path) = 1) ∧
      (∀ pr ∈ (build_tree devices).childPairs,
        derivedParent pr.2.port_path = some pr.1 ∧
          pr.1 ∈ devices.map (fun x => x.port_path) ∧
          rootCond pr.2 = false) ∧
      (∀ d ∈ devices, rootCond d = false →
        (∀ pp, derivedParent d.port_path = some pp →
          pp ∉ devices.map (fun x => x.port_path)) →
        d ∈ (build_tree devices).roots) := by
  intro devices hnd
  have hperm : (sortedDevices devices).Perm devices :=
    List.perm_insertionSort _ devices
  have hpaths : ∀ s, s ∈ indexPaths devices ↔
      s ∈ devices.map (fun x => x.port_path) := by
    intro s
    unfold indexPaths
    exact (hperm.map _).mem_iff
  refine ⟨fun d hd => build_tree_count devices hnd d hd, ?_, ?_⟩
  · intro pr hpr
    have h := buildFold_pairs (indexPaths devices) (sortedDevices devices)
      ⟨[], []⟩ (by intro pr h; exact absurd h (by simp)) pr hpr
    exact ⟨h.1, (hpaths pr.1).mp h.2.1, h.2.2⟩
  · intro d hd hr horb
    exact buildFold_orphan_placed (indexPaths devices) (sortedDevices devices)
      ⟨[], []⟩ d (hperm.mem_iff.mpr hd) hr
      (fun pp hdp hmem => horb pp hdp ((hpaths pp).mp hmem))

def c4Root : USBDevice := ⟨5, "usb5", DeviceClass.hub, true, none⟩

def c4Hub : USBDevice := ⟨5, "5-1", DeviceClass.hub, false, none⟩

def c4Leaf : USBDevice := ⟨5, "5-1.2", DeviceClass.storage, false, none⟩

def c4Orphan : USBDevice := ⟨6, "6-3.1", DeviceClass.hid_mouse, false, none⟩

def c4Devices : List USBDevice := [c4Root, c4Hub, c4Leaf, c4Orphan]

/-- C4 witness: on a concrete forest the leaf `5-1.2` is placed exactly
once, and the orphan `6-3.1` (derived parent `6-3` unknown) becomes a
root. -/
theorem c4_witness :
    ((build_tree c4Devices).roots.countP
        (fun x => x.port_path == c4Leaf.port_path) +
      (build_tree c4Devices).childPairs.countP
        (fun x => x.2.port_path == c4Leaf.port_path) = 1) ∧
    c4Orphan ∈ (build_tree c4Devices).roots := by
  obtain ⟨h1, h2, h3⟩ := c4_topology_forest c4Devices (by decide)
  refine ⟨h1 c4Leaf (by decide), h3 c4Orphan (by decide) (by decide) ?_⟩
  intro pp hdp
  have hd : derivedParent c4Orphan.port_path = some "6-3" := by decide
  rw [hd] at hdp
  cases hdp
  decide

/-! #### C5: root identification -/

/-- A nonempty decimal-digit string. -/
def isNatString (s : String) : Bool :=
  !s.data.isEmpty && s.data.all Char.isDigit

/-- The root-hub textual form `usb<bus>`. -/
def rootFormPath (p : String) : Bool :=
  startsWithUsb p && isNatString ⟨p.data.drop 3⟩

/-- Well-formedness of a port path as far as root detection is
concerned: a path starting with `usb` is exactly the root-hub form
`usb<bus digits>` (ordinary paths `5-1.2` start with the bus number). -/
def wellFormedPath (p : String) : Bool :=
  rootFormPath p || !(startsWithUsb p)

/-- On well-formed paths the code's `startswith("usb")` test coincides
with the exact root-hub textual form. -/
theorem wellFormed_startsWithUsb {p : String}
    (h : wellFormedPath p = true) : startsWithUsb p = rootFormPath p := by
  unfold wellFormedPath at h
  cases hu : startsWithUsb p
  · simp [rootFormPath, hu]
  · rw [hu] at h
    simp at h
    rw [h]

/-- C5: a device with a well-formed port path whose derived parent is in
the index is placed as a root exactly when its `is_root_hub` flag is set
or its port path has the root-hub textual form `usb<bus>`. -/
theorem c5_root_identification :
    ∀ (devices : List USBDevice) (d : USBDevice),
      (devices.map (fun x => x.port_path)).Nodup →
      d ∈ devices →
      wellFormedPath d.port_path = true →
      ∀ pp, derivedParent d.port_path = some pp →
        pp ∈ devices.map (fun x => x.port_path) →
        (d ∈ (build_tree devices).roots ↔
          (d.is_root_hub || rootFormPath d.port_path) = true) := by
  intro devices d hnd hd hwf pp hdp hpp
  have hperm : (sortedDevices devices).Perm devices :=
    List.perm_insertionSort _ devices
  have hds : d ∈ sortedDevices devices := hperm.mem_iff.mpr hd
  have hbr : rootCond d = (d.is_root_hub || rootFormPath d.port_path) := by
    unfold rootCond
    rw [wellFormed_startsWithUsb hwf]
  constructor
  · intro hmem
    by_contra hne
    have hrc : rootCond d = false := by
      rw [hbr]
      cases hb : (d.is_root_hub || rootFormPath d.port_path)
      · rfl
      · exact absurd hb hne
    have hppi : pp ∈ indexPaths devices := by
      unfold indexPaths
      exact (hperm.map _).mem_iff.mpr hpp
    have hatt := buildFold_attached (indexPaths devices)
      (sortedDevices devices) ⟨[], []⟩ d pp hds hrc hdp hppi
    have hcount := build_tree_count devices hnd d hd
    have h1 : 0 < (build_tree devices).roots.countP
        (fun x => x.port_path == d.port_path) := by
      rw [List.countP_pos_iff]
      exact ⟨d, hmem, by simp⟩
    have h2 : 0 < (build_tree devices).childPairs.countP
        (fun x => x.2.port_path == d.port_path) := by
      rw [List.countP_pos_iff]
      exact ⟨(pp, d), hatt, by simp⟩
    omega
  · intro hflag
    have hrc : rootCond d = true := by rw [hbr]; exact hflag
    exact buildFold_root_placed (indexPaths devices) (sortedDevices devices)
      ⟨[], []⟩ d hds hrc

def c5Devices : List USBDevice := [c4Root, c4Hub]

/-- C5 witness: the hub at `5-1` (flag unset, parent `usb5` indexed) is
not a root of the assembled forest. -/
theorem c5_witness : c4Hub ∉ (build_tree c5Devices).roots := by
  have hiff := c5_root_identification c5Devices c4Hub (by decide) (by decide)
    (by decide) "usb5" (by decide) (by decide)
  intro hmem
  exact absurd (hiff.mp hmem) (by decide)

/-! ### Active Bisection Engine (`test_hub`)

`test_hub` (lines 815-968) drives the hardware through the per-device
sysfs `authorized` attribute and never reads it back, so the attribute
state is fully determined by the write trace.  The embedding records
every `write_text` call in a trace; an oracle (`World`) chooses the
outcome of each write, the existence of each `authorized` attribute,
and the contents of the concurrently-updated device map at each
observation instant. -/

/-- Outcome of one `authorized_path.write_text(...)` call. -/
inductive WriteOutcome where
  | ok
  | permError
  | otherError
deriving DecidableEq, Repr

/-- One recorded hardware write: attribute path, value written (`"0"`
de-authorizes, `"1"` authorizes), and whether the call succeeded (an
exception leaves the attribute unchanged). -/
structure WriteEvent where
  path : String
  val : String
  ok : Bool
deriving DecidableEq, Repr

/-- The environment of one `test_hub` run: `devsAt n` is `self._devices`
as observed after the n-th `asyncio.sleep`; `authExists` is the
`authorized`-attribute existence test; `writeOutcome n` is the outcome
of the n-th write. -/
structure World where
  devsAt : Nat → List (String × USBDevice)
  authExists : String → Bool
  writeOutcome : Nat → WriteOutcome

/-- Execution bookkeeping: write counter, sleep counter, write trace. -/
structure TestSt where
  wcount : Nat
  time : Nat
  trace : List WriteEvent
deriving DecidableEq, Repr

/-- `path.write_text(v)`: consume the next oracle outcome and record the
attempt. -/
def doWrite (w : World) (st : TestSt) (p v : String) : WriteOutcome × TestSt :=
  (w.writeOutcome st.wcount,
   { st with
      wcount := st.wcount + 1,
      trace := st.trace ++ [⟨p, v, decide (w.writeOutcome st.wcount = WriteOutcome.ok)⟩] })

/-- `await asyncio.sleep(...)`: the device map may have changed when we
look again. -/
def doSleep (st : TestSt) : TestSt :=
  { st with time := st.time + 1 }

/-- The authorized-attribute state after a write trace, starting from
`a0`: the last successful write to a path determines its value
(`"1"` = authorized). -/
def authAfter (a0 : String → Bool) : List WriteEvent → String → Bool
  | [], q => a0 q
  | e :: tr, q =>
      authAfter (fun r => if e.ok && (e.path == r) then (e.val == "1") else a0 r) tr q

/-- Guaranteed-release discipline on a trace: every successful
de-authorize write is followed by a later authorize attempt on the same
attribute. -/
def Paired : List WriteEvent → Prop
  | [] => True
  | e :: tr =>
      ((e.val = "0" ∧ e.ok = true) →
        ∃ s, (⟨e.path, "1", s⟩ : WriteEvent) ∈ tr) ∧ Paired tr

theorem Paired.append {t1 t2 : List WriteEvent}
    (h1 : Paired t1) (h2 : Paired t2) : Paired (t1 ++ t2) := by
  induction t1 with
  | nil => exact h2
  | cons e t1 ih =>
    obtain ⟨he, h1r⟩ := h1
    exact ⟨fun hc => (he hc).imp
        (fun s hs => List.mem_append_left t2 hs), ih h1r⟩

/-- Success bit of the last authorize attempt on `q` (true when no
authorize attempt was ever made), as a left fold. -/
def lastAuthOkAux (cur : Bool) : List WriteEvent → String → Bool
  | [], _ => cur
  | e :: tr, q =>
      lastAuthOkAux (if e.path == q && e.val == "1" then e.ok else cur) tr q

/-- The last authorize attempt on `q` in the trace succeeded (or none
was made). -/
def lastAuthOk (tr : List WriteEvent) (q : String) : Bool :=
  lastAuthOkAux true tr q

theorem lastAuthOkAux_const {tr : List WriteEvent} {q : String}
    (h : ∀ x ∈ tr, ¬(x.path = q ∧ x.val = "1")) :
    ∀ cur, lastAuthOkAux cur tr q = cur := by
  induction tr with
  | nil => intro cur; rfl
  | cons f tr ih =>
    intro cur
    have hf : (f.path == q && f.val == "1") = false := by
      rcases hb : (f.path == q && f.val == "1")
      · rfl
      · exfalso
        simp only [Bool.and_eq_true, beq_iff_eq] at hb
        exact h f (List.mem_cons_self f tr) hb
    show lastAuthOkAux (if f.path == q && f.val == "1" then f.ok else cur) tr q = cur
    rw [hf]
    exact ih (fun x hx => h x (List.mem_cons_of_mem f hx)) cur

/-- When some authorize attempt on `q` exists and the last one
succeeded, a successful authorize write on `q` is in the trace. -/
theorem lastAuthOk_exists {tr : List WriteEvent} {q : String} :
    ∀ cur, lastAuthOkAux cur tr q = true →
      (∃ x ∈ tr, x.path = q ∧ x.val = "1") →
      ∃ x ∈ tr, x.path = q ∧ x.val = "1" ∧ x.ok = true := by
  induction tr with
  | nil => rintro cur _ ⟨x, hx, _⟩; cases hx
  | cons f tr ih =>
    intro cur hl hex
    rcases hb : (f.path == q && f.val == "1") with _ | _
    · rcases hex with ⟨x, hx, hxq, hxv⟩
      rcases List.mem_cons.mp hx with rfl | hx2
      · exfalso
        simp [hxq, hxv] at hb
      · have hl2 : lastAuthOkAux cur tr q = true := by
          have : lastAuthOkAux (if f.path == q && f.val == "1" then f.ok else cur) tr q = true := hl
          rwa [hb, if_neg (by simp)] at this
        obtain ⟨x2, hm, h1, h2, h3⟩ := ih cur hl2 ⟨x, hx2, hxq, hxv⟩
        exact ⟨x2, List.mem_cons_of_mem f hm, h1, h2, h3⟩
    · have hfq : f.path = q ∧ f.val = "1" := by
        simpa using hb
      have hl2 : lastAuthOkAux f.ok tr q = true := by
        have : lastAuthOkAux (if f.path == q && f.val == "1" then f.ok else cur) tr q = true := hl
        rwa [hb, if_pos rfl] at this
      by_cases htr : ∃ x ∈ tr, x.path = q ∧ x.val = "1"
      · obtain ⟨x2, hm, h1, h2, h3⟩ := ih f.ok hl2 htr
        exact ⟨x2, List.mem_cons_of_mem f hm, h1, h2, h3⟩
      · have hconst := lastAuthOkAux_const
          (fun x hx hcontra => htr ⟨x, hx, hcontra⟩) f.ok
        rw [hconst] at hl2
        exact ⟨f, List.mem_cons_self f tr, hfq.1, hfq.2, hl2⟩

/-- A trace of all-successful writes trivially has successful last
authorize attempts. -/
theorem lastAuthOk_of_all_ok {tr : List WriteEvent}
    (h : ∀ e ∈ tr, e.ok = true) (q : String) : lastAuthOk tr q = true := by
  have haux : ∀ cur, cur = true → lastAuthOkAux cur tr q = true := by
    induction tr with
    | nil => intro cur hc; exact hc
    | cons e tr ih =>
      intro cur hc
      show lastAuthOkAux (if e.path == q && e.val == "1" then e.ok else cur) tr q = true
      refine ih (fun x hx => h x (List.mem_cons_of_mem e hx)) _ ?_
      split_ifs
      · exact h e (List.mem_cons_self e tr)
      · exact hc
  exact haux true rfl

/-- Main trace property: a paired trace of `"0"`/`"1"` writes whose last
authorize attempt on `q` succeeded leaves `q` authorized whenever some
write to `q` succeeded, and untouched otherwise. -/
theorem authAfter_final {tr : List WriteEvent} {q : String} :
    ∀ (a0 : String → Bool) (cur : Bool),
      Paired tr → (∀ e ∈ tr, e.val = "0" ∨ e.val = "1") →
      lastAuthOkAux cur tr q = true →
      ((∃ e ∈ tr, e.path = q ∧ e.ok = true) → authAfter a0 tr q = true) ∧
      ((¬ ∃ e ∈ tr, e.path = q ∧ e.ok = true) → authAfter a0 tr q = a0 q) := by
  induction tr with
  | nil =>
    intro a0 cur _ _ _
    exact ⟨fun h => absurd h (by simp), fun _ => rfl⟩
  | cons e tr ih =>
    intro a0 cur hp hwf hl
    obtain ⟨hpe, hptr⟩ := hp
    have hwf2 : ∀ x ∈ tr, x.val = "0" ∨ x.val = "1" :=
      fun x hx => hwf x (List.mem_cons_of_mem e hx)
    have hl2 : lastAuthOkAux (if e.path == q && e.val == "1" then e.ok else cur) tr q = true := hl
    have ih2 := ih (fun r => if e.ok && (e.path == r) then (e.val == "1") else a0 r) _ hptr hwf2 hl2
    constructor
    · rintro ⟨x, hx, hxq, hxok⟩
      by_cases htr : ∃ y ∈ tr, y.path = q ∧ y.ok = true
      · exact ih2.1 htr
      · have hee : e.path = q ∧ e.ok = true := by
          rcases List.mem_cons.mp hx with rfl | hx2
          · exact ⟨hxq, hxok⟩
          · exact absurd ⟨x, hx2, hxq, hxok⟩ htr
        have hstep : authAfter a0 (e :: tr) q
            = authAfter (fun r => if e.ok && (e.path == r) then (e.val == "1") else a0 r) tr q := rfl
        rw [hstep, ih2.2 htr]
        simp only [hee.2, hee.1, beq_self_eq_true, Bool.true_and, if_pos]
        rcases hwf e (List.mem_cons_self e tr) with h0 | h1
        · obtain ⟨s, hs⟩ := hpe ⟨h0, hee.2⟩
          have hauth : ∃ y ∈ tr, y.path = q ∧ y.val = "1" :=
            ⟨⟨e.path, "1", s⟩, hs, hee.1, rfl⟩
          obtain ⟨y, hy, hy1, hy2, hy3⟩ := lastAuthOk_exists _ hl2 hauth
          exact absurd ⟨y, hy, hy1, hy3⟩ htr
        · simp [h1]
    · intro hne
      have htr : ¬ ∃ y ∈ tr, y.path = q ∧ y.ok = true :=
        fun ⟨y, hy, h1, h2⟩ => hne ⟨y, List.mem_cons_of_mem e hy, h1, h2⟩
      have hee : ¬(e.path = q ∧ e.ok = true) :=
        fun h => hne ⟨e, List.mem_cons_self e tr, h.1, h.2⟩
      have hstep : authAfter a0 (e :: tr) q
          = authAfter (fun r => if e.ok && (e.path == r) then (e.val == "1") else a0 r) tr q := rfl
      rw [hstep, ih2.2 htr]
      rcases hok : e.ok
      · simp
      · have hpq : (e.path == q) = false := by
          rcases hb : (e.path == q)
          · rfl
          · exact absurd ⟨by simpa using hb, hok⟩ hee
        simp [hpq]

/-- The non-root hub port paths of a device map (lines 853-856 and
867-870). -/
def hubPaths (devs : List (String × USBDevice)) : List String :=
  (devs.filter (fun pd =>
    (pd.2.device_class == DeviceClass.hub) && !pd.2.is_root_hub)).map
    (fun pd => pd.1)

/-- The dict returned by `test_hub`: status, error message, and the
detected group's member list (per-member display metadata is read from
the device map for presentation only and is not modelled). -/
structure TestResult where
  status : String
  message : String
  members : List String
deriving DecidableEq, Repr

/-- A `{"status": "error", "message": ...}` return. -/
def errorResult (msg : String) : TestResult :=
  ⟨"error", msg, []⟩

/-- One Phase-2 candidate iteration (lines 895-930): skip candidates
without an `authorized` attribute; otherwise de-authorize, observe
whether the target vanished (bidirectional dependency), then re-enable —
with a best-effort re-enable in the exception handler. -/
def phase2Step (w : World) (port_path : String)
    (acc : List String × TestSt) (c : String) : List String × TestSt :=
  if w.authExists c then
    match doWrite w acc.2 c "0" with
    | (WriteOutcome.ok, st1) =>
      let st2 := doSleep st1
      let target_still_exists := ((w.devsAt st2.time).lookup port_path).isSome
      let members1 :=
        if target_still_exists then acc.1
        else if c ∈ acc.1 then acc.1 else acc.1 ++ [c]
      match doWrite w st2 c "1" with
      | (WriteOutcome.ok, st3) => (members1, doSleep st3)
      | (_, st3) => (members1, (doWrite w st3 c "1").2)
    | (_, st1) => (acc.1, (doWrite w st1 c "1").2)
  else acc

/-- The tail of `test_hub` after Phase 1 succeeded (lines 893-968):
run Phase 2 over the candidates with the result seeded by the target,
settle, and build the result. -/
def test_hub_phase2 (w : World) (port_path : String)
    (cands : List String) (st : TestSt) : TestResult × TestSt :=
  let res := cands.foldl (phase2Step w port_path) ([port_path], st)
  let st6 := doSleep res.2
  if res.1 = [] then (errorResult "No hubs detected in group", st6)
  else (⟨"success", "", res.1⟩, st6)

/-- `USBMonitor.test_hub` (lines 815-968). -/
def test_hub (w : World) (port_path : String) : TestResult × TestSt :=
  match (w.devsAt 0).lookup port_path with
  | none => (errorResult "Hub not found", ⟨0, 0, []⟩)
  | some hub =>
    if hub.device_class ≠ DeviceClass.hub then
      (errorResult "Not a hub device", ⟨0, 0, []⟩)
    else if !(w.authExists port_path) then
      (errorResult "Cannot access hub (sysfs path not found)", ⟨0, 0, []⟩)
    else
      match doWrite w ⟨0, 0, []⟩ port_path "0" with
      | (WriteOutcome.permError, st1) =>
          (errorResult "Permission denied. Run with sudo.", st1)
      | (WriteOutcome.otherError, st1) =>
          (errorResult "exception during phase 1",
           (doWrite w st1 port_path "1").2)
      | (WriteOutcome.ok, st1) =>
        let st2 := doSleep st1
        let hubs_before := hubPaths (w.devsAt 0)
        let hubs_after := hubPaths (w.devsAt st2.time)
        let candidate_hubs :=
          hubs_before.filter (fun q => !(hubs_after.contains q))
        match doWrite w st2 port_path "1" with
        | (WriteOutcome.permError, st3) =>
            (errorResult "Permission denied. Run with sudo.", st3)
        | (WriteOutcome.otherError, st3) =>
            (errorResult "exception during phase 1",
             (doWrite w st3 port_path "1").2)
        | (WriteOutcome.ok, st3) =>
            test_hub_phase2 w port_path candidate_hubs (doSleep st3)

/-- A de-authorize/authorize write pair is paired regardless of write
outcomes. -/
theorem paired_block2 (c : String) (b1 b2 : Bool) :
    Paired [⟨c, "0", b1⟩, ⟨c, "1", b2⟩] := by
  refine ⟨fun _ => ⟨b2, by simp⟩, ?_, trivial⟩
  rintro ⟨h, -⟩
  simp at h

/-- A de-authorize write followed by two authorize attempts is
paired. -/
theorem paired_block3 (c : String) (b1 b2 b3 : Bool) :
    Paired [⟨c, "0", b1⟩, ⟨c, "1", b2⟩, ⟨c, "1", b3⟩] := by
  refine ⟨fun _ => ⟨b2, by simp⟩, ?_, ?_, trivial⟩
  · rintro ⟨h, -⟩
    simp at h
  · rintro ⟨h, -⟩
    simp at h

/-- One Phase-2 iteration appends a closed, paired block of writes to
the skipped-or-tested candidate, and only ever adds that candidate (when
its attribute exists) to the member set. -/
theorem phase2Step_char (w : World) (p : String)
    (acc : List String × TestSt) (c : String) :
    ∃ tl,
      (phase2Step w p acc c).2.trace = acc.2.trace ++ tl ∧
      Paired tl ∧
      (∀ e ∈ tl, (e.val = "0" ∨ e.val = "1") ∧ e.path = c ∧
        w.authExists c = true) ∧
      (∀ x ∈ (phase2Step w p acc c).1,
        x ∈ acc.1 ∨ (x = c ∧ w.authExists c = true)) ∧
      (∀ x ∈ acc.1, x ∈ (phase2Step w p acc c).1) := by
  by_cases ha : w.authExists c
  · have hmem : ∀ (t : Bool) (x : String),
        x ∈ (if t then acc.1
             else if c ∈ acc.1 then acc.1 else acc.1 ++ [c]) →
        x ∈ acc.1 ∨ (x = c ∧ w.authExists c = true) := by
      intro t x hx
      split_ifs at hx
      · exact Or.inl hx
      · exact Or.inl hx
      · rcases List.mem_append.mp hx with h | h
        · exact Or.inl h
        · exact Or.inr ⟨List.mem_singleton.mp h, ha⟩
    have hmem2 : ∀ (t : Bool) (x : String), x ∈ acc.1 →
        x ∈ (if t then acc.1
             else if c ∈ acc.1 then acc.1 else acc.1 ++ [c]) := by
      intro t x hx
      split_ifs
      · exact hx
      · exact hx
      · exact List.mem_append_left _ hx
    rcases ho1 : w.writeOutcome acc.2.wcount with _ | _ | _
    · rcases ho2 : w.writeOutcome (acc.2.wcount + 1) with _ | _ | _
      · refine ⟨[⟨c, "0", true⟩, ⟨c, "1", true⟩], ?_,
          paired_block2 c true true, ?_, ?_, ?_⟩
        · simp [phase2Step, doWrite, doSleep, ha, ho1, ho2]
        · intro e he
          rcases List.mem_cons.mp he with rfl | he
          · exact ⟨Or.inl rfl, rfl, ha⟩
          · rcases List.mem_cons.mp he with rfl | he
            · exact ⟨Or.inr rfl, rfl, ha⟩
            · cases he
        · intro x hx
          refine hmem (((w.devsAt (doSleep
            (doWrite w acc.2 c "0").2).time).lookup p).isSome) x ?_
          simpa [phase2Step, doWrite, doSleep, ha, ho1, ho2] using hx
        · intro x hx
          have := hmem2 (((w.devsAt (doSleep
            (doWrite w acc.2 c "0").2).time).lookup p).isSome) x hx
          simpa [phase2Step, doWrite, doSleep, ha, ho1, ho2] using this
      · refine ⟨[⟨c, "0", true⟩, ⟨c, "1", false⟩,
          ⟨c, "1", decide (w.writeOutcome (acc.2.wcount + 2) = WriteOutcome.ok)⟩], ?_,
          paired_block3 c true false _, ?_, ?_, ?_⟩
        · simp [phase2Step, doWrite, doSleep, ha, ho1, ho2]
        · intro e he
          rcases List.mem_cons.mp he with rfl | he
          · exact ⟨Or.inl rfl, rfl, ha⟩
          · rcases List.mem_cons.mp he with rfl | he
            · exact ⟨Or.inr rfl, rfl, ha⟩
            · rcases List.mem_cons.mp he with rfl | he
              · exact ⟨Or.inr rfl, rfl, ha⟩
              · cases he
        · intro x hx
          refine hmem (((w.devsAt (doSleep
            (doWrite w acc.2 c "0").2).time).lookup p).isSome) x ?_
          simpa [phase2Step, doWrite, doSleep, ha, ho1, ho2] using hx
        · intro x hx
          have := hmem2 (((w.devsAt (doSleep
            (doWrite w acc.2 c "0").2).time).lookup p).isSome) x hx
          simpa [phase2Step, doWrite, doSleep, ha, ho1, ho2] using this
      · refine ⟨[⟨c, "0", true⟩, ⟨c, "1", false⟩,
          ⟨c, "1", decide (w.writeOutcome (acc.2.wcount + 2) = WriteOutcome.ok)⟩], ?_,
          paired_block3 c true false _, ?_, ?_, ?_⟩
        · simp [phase2Step, doWrite, doSleep, ha, ho1, ho2]
        · intro e he
          rcases List.mem_cons.mp he with rfl | he
          · exact ⟨Or.inl rfl, rfl, ha⟩
          · rcases List.mem_cons.mp he with rfl | he
            · exact ⟨Or.inr rfl, rfl, ha⟩
            · rcases List.mem_cons.mp he with rfl | he
              · exact ⟨Or.inr rfl, rfl, ha⟩
              · cases he
        · intro x hx
          refine hmem (((w.devsAt (doSleep
            (doWrite w acc.2 c "0").2).time).lookup p).isSome) x ?_
          simpa [phase2Step, doWrite, doSleep, ha, ho1, ho2] using hx
        · intro x hx
          have := hmem2 (((w.devsAt (doSleep
            (doWrite w acc.2 c "0").2).time).lookup p).isSome) x hx
          simpa [phase2Step, doWrite, doSleep, ha, ho1, ho2] using this
    · refine ⟨[⟨c, "0", false⟩,
        ⟨c, "1", decide (w.writeOutcome (acc.2.wcount + 1) = WriteOutcome.ok)⟩], ?_,
        paired_block2 c false _, ?_, ?_, ?_⟩
      · simp [phase2Step, doWrite, doSleep, ha, ho1]
      · intro e he
        rcases List.mem_cons.mp he with rfl | he
        · exact ⟨Or.inl rfl, rfl, ha⟩
        · rcases List.mem_cons.mp he with rfl | he
          · exact ⟨Or.inr rfl, rfl, ha⟩
          · cases he
      · intro x hx
        refine Or.inl ?_
        simpa [phase2Step, doWrite, doSleep, ha, ho1] using hx
      · intro x hx
        simpa [phase2Step, doWrite, doSleep, ha, ho1] using hx
    · refine ⟨[⟨c, "0", false⟩,
        ⟨c, "1", decide (w.writeOutcome (acc.2.wcount + 1) = WriteOutcome.ok)⟩], ?_,
        paired_block2 c false _, ?_, ?_, ?_⟩
      · simp [phase2Step, doWrite, doSleep, ha, ho1]
      · intro e he
        rcases List.mem_cons.mp he with rfl | he
        · exact ⟨Or.inl rfl, rfl, ha⟩
        · rcases List.mem_cons.mp he with rfl | he
          · exact ⟨Or.inr rfl, rfl, ha⟩
          · cases he
      · intro x hx
        refine Or.inl ?_
        simpa [phase2Step, doWrite, doSleep, ha, ho1] using hx
      · intro x hx
        simpa [phase2Step, doWrite, doSleep, ha, ho1] using hx
  · refine ⟨[], by simp [phase2Step, ha], trivial, by simp, ?_, ?_⟩
    · intro x hx
      refine Or.inl ?_
      simpa [phase2Step, ha] using hx
    · intro x hx
      simpa [phase2Step, ha] using hx

/-- Phase 2 as a whole appends a paired block of writes to
attribute-bearing candidates only, and the member set grows from the
seed only by attribute-bearing candidates. -/
theorem phase2_fold_char (w : World) (p : String) (cands : List String) :
    ∀ acc : List String × TestSt,
      ∃ tl,
        (cands.foldl (phase2Step w p) acc).2.trace = acc.2.trace ++ tl ∧
        Paired tl ∧
        (∀ e ∈ tl, (e.val = "0" ∨ e.val = "1") ∧
          e.path ∈ cands ∧ w.authExists e.path = true) ∧
        (∀ x ∈ (cands.foldl (phase2Step w p) acc).1,
          x ∈ acc.1 ∨ (x ∈ cands ∧ w.authExists x = true)) ∧
        (∀ x ∈ acc.1, x ∈ (cands.foldl (phase2Step w p) acc).1) := by
  induction cands with
  | nil =>
    intro acc
    exact ⟨[], by simp, trivial, by simp,
      fun x hx => Or.inl hx, fun x hx => hx⟩
  | cons c cands ih =>
    intro acc
    obtain ⟨t1, ht1, hp1, he1, hm1, hn1⟩ := phase2Step_char w p acc c
    obtain ⟨t2, ht2, hp2, he2, hm2, hn2⟩ := ih (phase2Step w p acc c)
    refine ⟨t1 ++ t2, ?_, Paired.append hp1 hp2, ?_, ?_, ?_⟩
    · rw [List.foldl_cons, ht2, ht1, List.append_assoc]
    · intro e he
      rcases List.mem_append.mp he with h | h
      · obtain ⟨hv, hpath, hauth⟩ := he1 e h
        exact ⟨hv, by rw [hpath]; exact List.mem_cons_self c cands,
          by rwa [hpath]⟩
      · obtain ⟨hv, hpath, hauth⟩ := he2 e h
        exact ⟨hv, List.mem_cons_of_mem c hpath, hauth⟩
    · intro x hx
      rw [List.foldl_cons] at hx
      rcases hm2 x hx with h | h
      · rcases hm1 x h with h2 | h2
        · exact Or.inl h2
        · refine Or.inr ⟨?_, ?_⟩
          · rw [h2.1]; exact List.mem_cons_self c cands
          · rw [h2.1]; exact h2.2
      · exact Or.inr ⟨List.mem_cons_of_mem c h.1, h.2⟩
    · intro x hx
      rw [List.foldl_cons]
      exact hn2 x (hn1 x hx)

theorem error_ne_success : ("error" : String) ≠ "success" := by decide

/-- The Phase-2 tail always succeeds (the member set is seeded with the
target, so the empty-group guard is unreachable), keeps the target in
the members, adds only attribute-bearing candidates, and appends a
paired block of candidate writes. -/
theorem test_hub_phase2_props (w : World) (p : String)
    (cands : List String) (st : TestSt) :
    ∃ tl,
      (test_hub_phase2 w p cands st).2.trace = st.trace ++ tl ∧
      Paired tl ∧
      (∀ e ∈ tl, (e.val = "0" ∨ e.val = "1") ∧
        e.path ∈ cands ∧ w.authExists e.path = true) ∧
      (test_hub_phase2 w p cands st).1.status = "success" ∧
      p ∈ (test_hub_phase2 w p cands st).1.members ∧
      (∀ x ∈ (test_hub_phase2 w p cands st).1.members,
        x = p ∨ (x ∈ cands ∧ w.authExists x = true)) := by
  obtain ⟨tl, ht, hp2, he, hm, hn⟩ := phase2_fold_char w p cands ([p], st)
  have hpmem : p ∈ (cands.foldl (phase2Step w p) ([p], st)).1 :=
    hn p (List.mem_singleton.mpr rfl)
  have hne : ¬ (cands.foldl (phase2Step w p) ([p], st)).1 = [] := by
    intro h
    rw [h] at hpmem
    cases hpmem
  have hred : test_hub_phase2 w p cands st =
      (⟨"success", "", (cands.foldl (phase2Step w p) ([p], st)).1⟩,
       doSleep (cands.foldl (phase2Step w p) ([p], st)).2) := by
    simp only [test_hub_phase2]
    rw [if_neg hne]
  rw [hred]
  refine ⟨tl, ?_, hp2, he, rfl, hpmem, ?_⟩
  · simpa [doSleep] using ht
  · intro x hx
    rcases hm x hx with h | h
    · exact Or.inl (List.mem_singleton.mp h)
    · exact Or.inr h

/-- Master structural property of a `test_hub` run: the write trace is
paired and consists of `"0"`/`"1"` writes to attribute-bearing paths;
and a success result contains the target among its members, every
member being the target or an attribute-bearing candidate. -/
theorem test_hub_props (w : World) (p : String) :
    Paired (test_hub w p).2.trace ∧
    (∀ e ∈ (test_hub w p).2.trace,
      (e.val = "0" ∨ e.val = "1") ∧ w.authExists e.path = true) ∧
    ((test_hub w p).1.status = "success" →
      w.authExists p = true ∧
      p ∈ (test_hub w p).1.members ∧
      (∀ x ∈ (test_hub w p).1.members,
        x = p ∨ w.authExists x = true)) := by
  rcases hl : (w.devsAt 0).lookup p with _ | hub
  · refine ⟨?_, ?_, ?_⟩
    · simp [test_hub, hl, Paired]
    · simp [test_hub, hl]
    · intro h
      simp [test_hub, hl, errorResult] at h
  · by_cases hcls : hub.device_class = DeviceClass.hub
    · by_cases hae : w.authExists p
      · rcases ho1 : w.writeOutcome 0 with _ | _ | _
        · rcases ho2 : w.writeOutcome 1 with _ | _ | _
          · -- Phase 1 fully succeeded: continue into Phase 2.
            have hred : test_hub w p = test_hub_phase2 w p
                ((hubPaths (w.devsAt 0)).filter
                  (fun q => !((hubPaths (w.devsAt 1)).contains q)))
                ⟨2, 2, [⟨p, "0", true⟩, ⟨p, "1", true⟩]⟩ := by
              simp [test_hub, hl, hcls, hae, doWrite, doSleep, ho1, ho2]
            obtain ⟨tl, ht, hp2b, heb, hstat, hpm, hmem⟩ :=
              test_hub_phase2_props w p
                ((hubPaths (w.devsAt 0)).filter
                  (fun q => !((hubPaths (w.devsAt 1)).contains q)))
                ⟨2, 2, [⟨p, "0", true⟩, ⟨p, "1", true⟩]⟩
            rw [hred]
            refine ⟨?_, ?_, fun _ => ⟨hae, hpm, ?_⟩⟩
            · rw [ht]
              exact Paired.append (paired_block2 p true true) hp2b
            · intro e he
              rw [ht] at he
              rcases List.mem_append.mp he with h | h
              · rcases List.mem_cons.mp h with rfl | h
                · exact ⟨Or.inl rfl, hae⟩
                · rcases List.mem_cons.mp h with rfl | h
                  · exact ⟨Or.inr rfl, hae⟩
                  · cases h
              · exact ⟨(heb e h).1, (heb e h).2.2⟩
            · intro x hx
              rcases hmem x hx with h | h
              · exact Or.inl h
              · exact Or.inr h.2
          · refine ⟨?_, ?_, ?_⟩
            · have : (test_hub w p).2.trace
                  = [⟨p, "0", true⟩, ⟨p, "1", false⟩] := by
                simp [test_hub, hl, hcls, hae, doWrite, doSleep, ho1, ho2]
              rw [this]
              exact paired_block2 p true false
            · intro e he
              simp only [test_hub, hl, hcls, hae, doWrite, doSleep, ho1, ho2] at he
              simp at he
              rcases he with rfl | rfl
              · exact ⟨Or.inl rfl, hae⟩
              · exact ⟨Or.inr rfl, hae⟩
            · intro h
              simp [test_hub, hl, hcls, hae, doWrite, doSleep, ho1, ho2, errorResult] at h
          · refine ⟨?_, ?_, ?_⟩
            · have : (test_hub w p).2.trace
                  = [⟨p, "0", true⟩, ⟨p, "1", false⟩,
                     ⟨p, "1", decide (w.writeOutcome 2 = WriteOutcome.ok)⟩] := by
                simp [test_hub, hl, hcls, hae, doWrite, doSleep, ho1, ho2]
              rw [this]
              exact paired_block3 p true false _
            · intro e he
              simp only [test_hub, hl, hcls, hae, doWrite, doSleep, ho1, ho2] at he
              simp at he
              rcases he with rfl | rfl | rfl
              · exact ⟨Or.inl rfl, hae⟩
              · exact ⟨Or.inr rfl, hae⟩
              · exact ⟨Or.inr rfl, hae⟩
            · intro h
              simp [test_hub, hl, hcls, hae, doWrite, doSleep, ho1, ho2, errorResult] at h
        · refine ⟨?_, ?_, ?_⟩
          · have : (test_hub w p).2.trace = [⟨p, "0", false⟩] := by
              simp [test_hub, hl, hcls, hae, doWrite, ho1]
            rw [this]
            refine ⟨?_, trivial⟩
            rintro ⟨-, h⟩
            simp at h
          · intro e he
            simp only [test_hub, hl, hcls, hae, doWrite, ho1] at he
            simp at he
            rcases he with rfl
            exact ⟨Or.inl rfl, hae⟩
          · intro h
            simp [test_hub, hl, hcls, hae, doWrite, ho1, errorResult] at h
        · refine ⟨?_, ?_, ?_⟩
          · have : (test_hub w p).2.trace
                = [⟨p, "0", false⟩,
                   ⟨p, "1", decide (w.writeOutcome 1 = WriteOutcome.ok)⟩] := by
              simp [test_hub, hl, hcls, hae, doWrite, ho1]
            rw [this]
            exact paired_block2 p false _
          · intro e he
            simp only [test_hub, hl, hcls, hae, doWrite, ho1] at he
            simp at he
            rcases he with rfl | rfl
            · exact ⟨Or.inl rfl, hae⟩
            · exact ⟨Or.inr rfl, hae⟩
          · intro h
            simp [test_hub, hl, hcls, hae, doWrite, ho1, errorResult] at h
      · refine ⟨?_, ?_, ?_⟩
        · simp [test_hub, hl, hcls, hae, Paired]
        · simp [test_hub, hl, hcls, hae]
        · intro h
          simp [test_hub, hl, hcls, hae, errorResult] at h
    · refine ⟨?_, ?_, ?_⟩
      · simp [test_hub, hl, hcls, Paired]
      · simp [test_hub, hl, hcls]
      · intro h
        simp [test_hub, hl, hcls, errorResult] at h

/-! #### C1: guaranteed-release discipline of `test_hub` -/

def c1Hub : USBDevice := ⟨5, "5-1", DeviceClass.hub, false, none⟩

def c1HubB : USBDevice := ⟨5, "5-1.4", DeviceClass.hub, false, none⟩

/-- A world in which the Phase-1 de-authorize succeeds and the Phase-1
re-authorize raises `PermissionError`. -/
def c1World : World :=
  ⟨fun _ => [("5-1", c1Hub)], fun q => q == "5-1",
   fun n => if n = 0 then WriteOutcome.ok else WriteOutcome.permError⟩

/-- C1 counterexample: on the permission-error path in which the target
was successfully de-authorized and the restoring write raises
`PermissionError`, `test_hub` returns the permission error with the
target's authorization attribute left in the de-authorized state — the
`except PermissionError` handler performs no restoring write. -/
theorem c1_counterexample :
    (test_hub c1World "5-1").1.status = "error" ∧
    (test_hub c1World "5-1").1.message = "Permission denied. Run with sudo." ∧
    (⟨"5-1", "0", true⟩ : WriteEvent) ∈ (test_hub c1World "5-1").2.trace ∧
    authAfter (fun _ => true) (test_hub c1World "5-1").2.trace "5-1" = false := by
  decide

/-- C1 (amended): on every execution path every successful de-authorize
write is followed by a later authorize attempt on the same attribute
(`Paired`); and provided the last authorize attempt on each attribute
succeeds, the target (initially authorized) and every device that was
successfully de-authorized end in the authorized state.  (When an
authorize write itself fails — e.g. `PermissionError` on the Phase-1
re-enable — the attribute can be left de-authorized, as
`c1_counterexample` shows.) -/
theorem c1_bisection_restore :
    ∀ (w : World) (p : String) (a0 : String → Bool),
      Paired (test_hub w p).2.trace ∧
      (a0 p = true →
        (∀ q, lastAuthOk (test_hub w p).2.trace q = true) →
        authAfter a0 (test_hub w p).2.trace p = true ∧
        (∀ q, (⟨q, "0", true⟩ : WriteEvent) ∈ (test_hub w p).2.trace →
          authAfter a0 (test_hub w p).2.trace q = true)) := by
  intro w p a0
  obtain ⟨hpair, hev, -⟩ := test_hub_props w p
  refine ⟨hpair, fun ha0 hlast => ?_⟩
  have hwf : ∀ e ∈ (test_hub w p).2.trace, e.val = "0" ∨ e.val = "1" :=
    fun e he => (hev e he).1
  constructor
  · by_cases hex : ∃ e ∈ (test_hub w p).2.trace, e.path = p ∧ e.ok = true
    · exact (authAfter_final a0 true hpair hwf (hlast p)).1 hex
    · rw [(authAfter_final a0 true hpair hwf (hlast p)).2 hex]
      exact ha0
  · intro q hq
    exact (authAfter_final a0 true hpair hwf (hlast q)).1
      ⟨⟨q, "0", true⟩, hq, rfl, rfl⟩

/-- A world where Phase 1 reveals candidate `5-1.4`, every write
succeeds, and the target never vanishes (so the candidate is judged
separate). -/
def c1WorldOk : World :=
  ⟨fun t => if t = 1 then [("5-1", c1Hub)]
            else [("5-1", c1Hub), ("5-1.4", c1HubB)],
   fun _ => true, fun _ => WriteOutcome.ok⟩

/-- C1 witness: in a run where every write succeeds, the target and the
de-authorized candidate both end authorized. -/
theorem c1_witness :
    authAfter (fun _ => true) (test_hub c1WorldOk "5-1").2.trace "5-1" = true ∧
    (⟨"5-1.4", "0", true⟩ : WriteEvent) ∈ (test_hub c1WorldOk "5-1").2.trace ∧
    authAfter (fun _ => true) (test_hub c1WorldOk "5-1").2.trace "5-1.4" = true := by
  obtain ⟨hpair, himp⟩ := c1_bisection_restore c1WorldOk "5-1" (fun _ => true)
  have hall : ∀ q, lastAuthOk (test_hub c1WorldOk "5-1").2.trace q = true :=
    fun q => lastAuthOk_of_all_ok (by decide) q
  obtain ⟨h1, h2⟩ := himp rfl hall
  exact ⟨h1, by decide, h2 "5-1.4" (by decide)⟩

/-! #### C10: candidates without an `authorized` attribute are skipped -/

/-- C10: a Phase-2 candidate whose `authorized` attribute path does not
exist is never written to at all (never de-authorized), and on a success
result it is not among the confirmed members while the target always
is. -/
theorem c10_missing_auth_skipped :
    ∀ (w : World) (p c : String),
      w.authExists c = false →
      (∀ e ∈ (test_hub w p).2.trace, e.path ≠ c) ∧
      ((test_hub w p).1.status = "success" →
        p ∈ (test_hub w p).1.members ∧
        c ∉ (test_hub w p).1.members) := by
  intro w p c hc
  obtain ⟨-, hev, hsucc⟩ := test_hub_props w p
  refine ⟨?_, fun hs => ?_⟩
  · intro e he heq
    have h2 := (hev e he).2
    rw [heq, hc] at h2
    cases h2
  · obtain ⟨hap, hp, hall⟩ := hsucc hs
    refine ⟨hp, fun hmem => ?_⟩
    rcases hall c hmem with rfl | hauth
    · rw [hap] at hc
      cases hc
    · rw [hc] at hauth
      cases hauth

/-- A world where candidate `5-1.4` vanishes in Phase 1 but exposes no
`authorized` attribute. -/
def c10World : World :=
  ⟨fun t => if t = 0 then [("5-1", c1Hub), ("5-1.4", c1HubB)]
            else [("5-1", c1Hub)],
   fun q => q == "5-1", fun _ => WriteOutcome.ok⟩

/-- C10 witness: the attribute-less candidate `5-1.4` is silently
skipped — the run succeeds with exactly the target confirmed. -/
theorem c10_witness :
    "5-1" ∈ (test_hub c10World "5-1").1.members ∧
    "5-1.4" ∉ (test_hub c10World "5-1").1.members ∧
    (test_hub c10World "5-1").1.status = "success" := by
  obtain ⟨hnw, hsucc⟩ :=
    c10_missing_auth_skipped c10World "5-1" "5-1.4" (by decide)
  have hs : (test_hub c10World "5-1").1.status = "success" := by decide
  obtain ⟨h1, h2⟩ := hsucc hs
  exact ⟨h1, h2, hs⟩

end USBExplorerVerification
